import Mathlib

/-!
Verification of the RAG index/query engine of the Multi-Agent-Decision-Maker
repository against its specification.

The Python sources are shallowly embedded:
* page text and prompts are `List Char` (`Text`);
* Python exceptions become an explicit `PyErr` inductive, and functions that
  can raise return `Except PyErr _` (or thread the registry state and return
  it together with the outcome);
* the `while` loops of the chunkers are embedded with an explicit fuel
  argument (the sources contain no recursion bound; `none` models a loop
  that fails to terminate within the given fuel);
* `os.listdir` has no specified order, so folder contents are passed as an
  explicit list, and "the same folder" is rendered as "a permutation of the
  same file entries";
* `SentenceTransformer.encode` is an external capability and is passed in as
  a function into `List ℚ` vectors; FAISS `IndexFlatL2.search` is modelled by
  sorting squared-Euclidean distances and padding with label `-1` (and
  `FLT_MAX` distance) when `k` exceeds the number of stored vectors, exactly
  as the real index does; a requested `k = 0` raises, as FAISS's
  `FAISS_THROW_IF_NOT(k > 0)` assertion does.
-/

abbrev Text := List Char

/-- Whitespace as recognised by Python's `str.strip()` / `str.split()`
(ASCII subset). -/
def pyIsSpace (c : Char) : Bool :=
  c = ' ' || c = '\t' || c = '\n' || c = '\r' || c = '\x0b' || c = '\x0c'

/-- Python `str.strip()`. -/
def pyStrip (l : Text) : Text :=
  ((l.dropWhile pyIsSpace).reverse.dropWhile pyIsSpace).reverse

/-- Helper for `pySplit`: accumulates the current word (reversed). -/
def pySplitAux : List Char → List Char → List Text
  | [], acc => if acc.isEmpty then [] else [acc.reverse]
  | c :: cs, acc =>
    if pyIsSpace c then
      if acc.isEmpty then pySplitAux cs [] else acc.reverse :: pySplitAux cs []
    else pySplitAux cs (c :: acc)

/-- Python `str.split()` with no arguments: split on runs of whitespace,
never producing empty words. -/
def pySplit (l : Text) : List Text := pySplitAux l []

/-- Python slicing `l[i:j]` (step 1), including negative-index wrapping. -/
def pySlice {α : Type} (l : List α) (i j : Int) : List α :=
  let n : Int := l.length
  let i' := (if i < 0 then max (n + i) 0 else min i n).toNat
  let j' := (if j < 0 then max (n + j) 0 else min j n).toNat
  (l.take j').drop i'

/-- Python exceptions relevant to the embedded code. -/
inductive PyErr where
  | valueError (msg : String)
  | attributeError (msg : String)
  | indexError (msg : String)
  | runtimeError (msg : String)
deriving DecidableEq

deriving instance DecidableEq for Except

/-- Python indexing `l[i]`: negative indices wrap once; out of range raises
`IndexError`. -/
def pyGet {α : Type} (l : List α) (i : Int) : Except PyErr α :=
  if h : 0 ≤ i ∧ i < (l.length : Int) then
    .ok (l.get ⟨i.toNat, by omega⟩)
  else if h' : -(l.length : Int) ≤ i ∧ i < 0 then
    .ok (l.get ⟨(i + l.length).toNat, by omega⟩)
  else .error (.indexError "list index out of range")

/-- `s` occurs as a contiguous run inside `l`. -/
def InfixOf {α : Type} (s l : List α) : Prop := ∃ a b, l = a ++ s ++ b

/-- Executable contiguous-substring test (used to evaluate concrete
counterexamples); `containsSeq_iff` relates it to `InfixOf`. -/
def containsSeq (s l : Text) : Bool := l.tails.any (fun t => s.isPrefixOf t)

/-! ## Chunkers -/

/-- The word-based chunker of `src/rag_engine.py` (`simple_chunk`): the
`while` loop, with fuel.  Mirrors

    while start < n:
        end = min(start + chunk_size, n)
        chunk = " ".join(words[start:end])
        if chunk.strip(): chunks.append(chunk)
        if end == n: break
        start = max(end - overlap, 0)
-/
def RagEngine.loop (words : List Text) (chunk_size overlap : Int) :
    Nat → Int → List Text → Option (List Text)
  | 0, _, _ => none
  | fuel + 1, start, chunks =>
    let n : Int := words.length
    if start < n then
      let e := min (start + chunk_size) n
      let chunk := List.intercalate [' '] (pySlice words start e)
      let chunks' := if pyStrip chunk = [] then chunks else chunks ++ [chunk]
      if e = n then some chunks'
      else RagEngine.loop words chunk_size overlap fuel (max (e - overlap) 0) chunks'
    else some chunks

/-- `simple_chunk` of `src/rag_engine.py` (defaults `chunk_size=800`,
`overlap=200`).  The source performs no validation of `chunk_size`/`overlap`
and contains no `raise`: the only non-`some` outcome is fuel exhaustion,
which models the loop failing to terminate. -/
def RagEngine.simple_chunk (text : Text) (chunk_size overlap : Int) : Option (List Text) :=
  let words := pySplit text
  RagEngine.loop words chunk_size overlap (words.length + 1) 0 []

/-- The sequence of `[start, end)` windows visited by either chunking loop on
a sequence of `n` units, ignoring the character-chunker's blank-window break
(which `PdfLoader.charWindows` adds). -/
def chunkWindows (n chunk_size overlap : Int) : Nat → Int → List (Int × Int)
  | 0, _ => []
  | fuel + 1, start =>
    if start < n then
      let e := min (start + chunk_size) n
      (start, e) :: (if e = n then [] else chunkWindows n chunk_size overlap fuel (max (e - overlap) 0))
    else []

namespace PdfLoader

/-- The `metadata` dict built by `load_pdfs`. -/
structure Meta where
  source : String
  page : Nat
  filename : String
deriving DecidableEq

/-- A page dict produced by `load_pdfs`. -/
structure Page where
  id : String
  text : Text
  metadata : Meta
deriving DecidableEq

/-- A chunk dict produced by `simple_chunk`. -/
structure Chunk where
  id : String
  text : Text
  metadata : Meta
deriving DecidableEq

/-- The per-page `while` loop of `simple_chunk` in
`src/autoresearcher/pdf_loader.py`, with fuel.  Mirrors

    while start < n:
        end = min(start + chunk_size, n)
        chunk_text = text[start:end].strip()
        if not chunk_text: break
        chunks.append({id: f"{page_id}_c{counter}", ...}); counter += 1
        if end == n: break
        start = max(0, end - overlap)
-/
def pageLoop (pid : String) (meta : Meta) (text : Text) (chunk_size overlap : Int) :
    Nat → Int → Nat → List Chunk → Option (Nat × List Chunk)
  | 0, _, _, _ => none
  | fuel + 1, start, counter, chunks =>
    let n : Int := text.length
    if start < n then
      let e := min (start + chunk_size) n
      let chunk_text := pyStrip (pySlice text start e)
      if chunk_text = [] then some (counter, chunks)
      else
        let chunks' := chunks ++ [⟨pid ++ "_c" ++ toString counter, chunk_text, meta⟩]
        if e = n then some (counter + 1, chunks')
        else pageLoop pid meta text chunk_size overlap fuel (max 0 (e - overlap)) (counter + 1) chunks'
    else some (counter, chunks)

/-- One iteration of `simple_chunk`'s outer `for page in pages` loop. -/
def chunkStep (chunk_size overlap : Int) (st : Option (Nat × List Chunk)) (p : Page) :
    Option (Nat × List Chunk) :=
  match st with
  | none => none
  | some (counter, chunks) =>
    pageLoop p.id p.metadata p.text chunk_size overlap (p.text.length + 1) 0 counter chunks

/-- `simple_chunk` of `src/autoresearcher/pdf_loader.py` (defaults
`chunk_size=800`, `overlap=100`): folds the per-page loop over all pages,
threading the global chunk counter. -/
def simple_chunk (pages : List Page) (chunk_size overlap : Int) : Option (List Chunk) :=
  (pages.foldl (chunkStep chunk_size overlap) (some (0, []))).map (fun st => st.2)

/-- The `[start, end)` windows the character chunker actually emits on one
page, including its break on a whitespace-only window. -/
def charWindows (text : Text) (chunk_size overlap : Int) : Nat → Int → List (Int × Int)
  | 0, _ => []
  | fuel + 1, start =>
    let n : Int := text.length
    if start < n then
      let e := min (start + chunk_size) n
      if pyStrip (pySlice text start e) = [] then []
      else (start, e) :: (if e = n then []
        else charWindows text chunk_size overlap fuel (max 0 (e - overlap)))
    else []

end PdfLoader

/-! ## Embedding vectors and the FAISS model -/

abbrev Vec := List Rat

/-- Squared Euclidean distance, the metric of `faiss.IndexFlatL2`. -/
def sqDist (u v : Vec) : Rat := ((u.zip v).map (fun p => (p.1 - p.2) * (p.1 - p.2))).sum

/-- Compare two (position, distance) pairs by distance. -/
def distLe (a b : Int × Rat) : Prop := a.2 ≤ b.2

instance : DecidableRel distLe := fun a b => inferInstanceAs (Decidable (a.2 ≤ b.2))

instance : IsTotal (Int × Rat) distLe := ⟨fun a b => le_total a.2 b.2⟩

instance : IsTrans (Int × Rat) distLe := ⟨fun _ _ _ h1 h2 => le_trans h1 h2⟩

/-- The distance FAISS reports for padding slots (`FLT_MAX`). -/
def faissPadDist : Rat := 340282346638528859811704183484516925440

/-- All (position, distance) pairs for a query against the stored vectors. -/
def scored (store : List Vec) (q : Vec) : List (Int × Rat) :=
  (List.range store.length).map (fun i => (Int.ofNat i, sqDist q (store.getD i [])))

/-- The stored positions ranked by ascending distance to the query. -/
def rankPairs (store : List Vec) (q : Vec) : List (Int × Rat) :=
  List.insertionSort distLe (scored store q)

/-- `faiss.IndexFlatL2.search` for one query vector: the `k` nearest
(position, distance) pairs in ascending distance; when fewer than `k` vectors
are stored the remaining slots are padded with label `-1`. -/
def faissSearch (store : List Vec) (q : Vec) (k : Nat) : List (Int × Rat) :=
  (rankPairs store q).take k ++ List.replicate (k - store.length) (-1, faissPadDist)

/-- The full `index.search(q, k)` call as Python sees it:
`faiss::Index::search` begins with `FAISS_THROW_IF_NOT(k > 0)`, so a
requested `k = 0` raises a `RuntimeError`; for `k ≥ 1` it returns the
ranked-and-padded results of `faissSearch`. -/
def faissSearchE (store : List Vec) (q : Vec) (k : Nat) : Except PyErr (List (Int × Rat)) :=
  if k = 0 then .error (.runtimeError "Error in faiss::Index::search: k > 0")
  else .ok (faissSearch store q k)

/-- A PDF file as the loaders see it: a file name and the page texts that
`pypdf` extracts (an unreadable page extracts as `""`). -/
structure PdfFile where
  name : String
  pages : List Text
deriving DecidableEq

/-- `name.lower().endswith(".pdf")`. -/
def isPdfName (s : String) : Bool := ".pdf".data.isSuffixOf (s.data.map Char.toLower)

/-! ## The top-level engine (`src/rag_engine.py`) -/

/-- One entry of `RAGEngine.indexes`: `{"chunks": ..., "index"/"embeddings": ...}`
(the FAISS index is fully determined by the embeddings). -/
structure IdxData where
  chunks : List Text
  embeddings : List Vec
deriving DecidableEq

/-- `RAGEngine.indexes`: name -> collection, newest binding first. -/
abbrev Registry := List (String × IdxData)

/-- `load_pdf_text`: pages joined with `"\n"`. -/
def RagEngine.load_pdf_text (f : PdfFile) : Text := List.intercalate ['\n'] f.pages

/-- `RAGEngine.list_pdfs`: filters `.pdf` entries of `os.listdir`, in listing
order (no sort). -/
def RagEngine.list_pdfs (files : List PdfFile) : List PdfFile :=
  files.filter (fun f => isPdfName f.name)

/-- `RAGEngine.build_index`.  `enc` is the bound SentenceTransformer;
`folder = none` models a non-directory path.  Returns the registry after the
call together with the outcome; every `raise` happens before the single
mutation of `self.indexes`, so error paths return the registry unchanged. -/
def RagEngine.build_index (enc : Text → Vec) (st : Registry) (name : String)
    (folder : Option (List PdfFile)) : Registry × Except PyErr Nat :=
  match folder with
  | none => (st, .error (.valueError "Folder does not exist"))
  | some files =>
    let pdfs := RagEngine.list_pdfs files
    if pdfs.isEmpty then (st, .error (.valueError "No PDFs found in folder"))
    else
      let all_chunks :=
        (pdfs.map (fun f => (RagEngine.simple_chunk (RagEngine.load_pdf_text f) 800 200).getD [])).flatten
      if all_chunks.isEmpty then (st, .error (.valueError "No text chunks extracted from PDFs."))
      else ((name, ⟨all_chunks, all_chunks.map enc⟩) :: st, .ok all_chunks.length)

/-- `RAGEngine.query`: search, then keep `chunks[idx]` for each returned
label with `0 <= idx < len(chunks)`. -/
def RagEngine.query (enc : Text → Vec) (st : Registry) (name : String) (question : Text)
    (top_k : Nat) : Except PyErr (Text × List Text) :=
  match st.lookup name with
  | none => .error (.valueError ("Index '" ++ name ++ "' not found. Build it first."))
  | some data =>
    match faissSearchE data.embeddings (enc question) top_k with
    | .error e => .error e
    | .ok results =>
      let labels := results.map (fun p => p.1)
      let selected := labels.filterMap (fun idx =>
        if 0 ≤ idx ∧ idx < (data.chunks.length : Int) then data.chunks.get? idx.toNat else none)
      .ok (List.intercalate "\n\n---\n\n".data selected, selected)

/-- The f-string prompt of `RAGEngine.answer`, around question and context. -/
def RagEngine.promptOf (question context : Text) : Text :=
  ("You are a precise research assistant.\n\nYou will answer the user's question *only* using the context from the PDF chunks below.\nIf something is not supported by the context, say you don't know.\n\n[QUESTION]\n").data
    ++ question
    ++ ("\n\n[CONTEXT]\n").data
    ++ context
    ++ ("\n\nNow provide a clear, detailed, well-structured answer grounded in this context.\n").data

/-- `call_ollama` of `src/autoresearcher/llm_client.py`: the whole HTTP
call + `raise_for_status` + JSON access sits in one `try`, whose outcome is
`backend prompt`; any exception `e` is converted to the string
`f"[OLLAMA ERROR] {e}"`, so the function always returns text. -/
def LlmClient.call_ollama (backend : Text → Except String Text) (prompt : Text) : Text :=
  match backend prompt with
  | .ok resp => pyStrip resp
  | .error e => ("[OLLAMA ERROR] ").data ++ e.data

/-- `call_llm(prompt)`: always routes to Ollama. -/
def LlmClient.call_llm (backend : Text → Except String Text) (prompt : Text) : Text :=
  LlmClient.call_ollama backend prompt

/-- `RAGEngine.answer`: retrieve context, build the prompt, call the local
model. -/
def RagEngine.answer (enc : Text → Vec) (backend : Text → Except String Text)
    (st : Registry) (name : String) (question : Text) (top_k : Nat) : Except PyErr Text :=
  match RagEngine.query enc st name question top_k with
  | .error e => .error e
  | .ok (context, _) => .ok (LlmClient.call_llm backend (RagEngine.promptOf question context))

/-! ## `src/autoresearcher/vector_store.py` -/

/-- `VectorStore`: the SentenceTransformer bound at construction is split
into its behaviour on stored items (`encItem`) and on query strings
(`encText`), since the orchestrator stores chunk dicts while queries are
strings. -/
structure VectorStore (α : Type) where
  encItem : α → Vec
  encText : Text → Vec
  index : Option (List Vec)
  texts : List α

/-- `VectorStore.build`. -/
def VectorStore.build {α : Type} (vs : VectorStore α) (chunks : List α) : VectorStore α :=
  { vs with index := some (chunks.map vs.encItem), texts := chunks }

/-- `VectorStore.search`: `return [self.texts[i] for i in indices[0]]` —
NOTE: no bound check, so FAISS's `-1` padding labels hit Python's negative
indexing (`pyGet`). -/
def VectorStore.search {α : Type} (vs : VectorStore α) (query : Text) (top_k : Nat) :
    Except PyErr (List α) :=
  match vs.index with
  | none => .error (.valueError "Index not built.")
  | some store =>
    match faissSearchE store (vs.encText query) top_k with
    | .error e => .error e
    | .ok results => results.mapM (fun p => pyGet vs.texts p.1)

/-! ## `src/autoresearcher/pdf_loader.py` loaders -/

/-- `list_pdfs`: filter `.pdf` entries, then `sorted(...)` by file name;
`folder = none` models a missing directory. -/
def PdfLoader.list_pdfs (folder : Option (List PdfFile)) : Except PyErr (List PdfFile) :=
  match folder with
  | none => .error (.valueError "Folder does not exist or is not a directory")
  | some files =>
    .ok (List.insertionSort (fun a b => a.name ≤ b.name) (files.filter (fun f => isPdfName f.name)))

/-- `load_pdfs` (= `load_pdfs_from_folder`): page dicts with stripped text,
blank pages skipped, ids `f"{basename}_p{i+1}"`. -/
def PdfLoader.load_pdfs (folder : Option (List PdfFile)) : Except PyErr (List PdfLoader.Page) :=
  match PdfLoader.list_pdfs folder with
  | .error e => .error e
  | .ok pdfs =>
    if pdfs.isEmpty then .error (.valueError "No PDFs found in folder")
    else .ok ((pdfs.map (fun f =>
      f.pages.enum.filterMap (fun pr =>
        let t := pyStrip pr.2
        if t = [] then none
        else some (⟨f.name ++ "_p" ++ toString (pr.1 + 1), t, ⟨f.name, pr.1 + 1, f.name⟩⟩ : PdfLoader.Page)))).flatten)

/-! ## `src/autoresearcher/orchestrator.py` -/

/-- The attributes `AutoResearcher.__init__` defines (`self.llm` carries no
state relevant here). -/
structure ARState where
  indexes : List (String × Bool)
  vectorstores : List (String × VectorStore PdfLoader.Chunk)

/-- `AutoResearcher.build_index`.  `vsNew` is the fresh `VectorStore()`
constructed inside the method (its encoders are the external model).  Both
registry mutations happen only after every check has passed. -/
def Orchestrator.build_index (vsNew : VectorStore PdfLoader.Chunk) (st : ARState)
    (name : String) (folder : Option (List PdfFile)) : ARState × Except PyErr Unit :=
  match PdfLoader.load_pdfs folder with
  | .error e => (st, .error e)
  | .ok pages =>
    if pages.isEmpty then (st, .error (.valueError "No PDF pages extracted."))
    else
      let chunks := (PdfLoader.simple_chunk pages 800 100).getD []
      if chunks.isEmpty then (st, .error (.valueError "No text chunks created."))
      else
        let store := VectorStore.build vsNew chunks
        ({ indexes := (name, true) :: st.indexes,
           vectorstores := (name, store) :: st.vectorstores }, .ok ())

/-- `AutoResearcher.answer(query, index_name)`.  After the registry check the
body executes `self.vector_store.search(question)`: the instance has no
attribute `vector_store` (only `vectorstores`), so the attribute lookup —
evaluated before the undefined name `question` — raises `AttributeError`;
everything after that line is unreachable. -/
def Orchestrator.answer (st : ARState) (query index_name : String) : Except PyErr Text :=
  match st.vectorstores.lookup index_name with
  | none => .error (.valueError "Index not found.")
  | some _store =>
    .error (.attributeError "'AutoResearcher' object has no attribute 'vector_store'")

/-! ## `src/autoresearcher/rag_engine.py` -/

/-- `RAGEngine.chunk` of the autoresearcher package: word-based,
non-overlapping strides of `size` words, words rejoined with single
spaces. -/
def ARRag.chunk (texts : List Text) (size : Nat) : List Text :=
  (texts.map (fun t =>
    let words := pySplit t
    ((List.range ((words.length + size - 1) / size)).map (fun j => j * size)).map
      (fun i => List.intercalate [' '] (pySlice words (Int.ofNat i) (Int.ofNat i + (size : Int)))))).flatten

/-! ## Concrete fixtures used by witnesses and counterexamples -/

/-- A degenerate embedder (every text maps to the 1-dimensional vector `[0]`). -/
def encZero : Text → Vec := fun _ => [0]

/-- A generation backend whose HTTP call always fails. -/
def backendDown : Text → Except String Text := fun _ => .error "connection refused"

/-- A generation backend that replies with the prompt it received. -/
def backendEcho : Text → Except String Text := fun p => .ok p

/-- A built one-chunk collection, as `build_index` would store it under
`encZero`. -/
def collPets : IdxData := ⟨["Cats are mammals.".data], [[0]]⟩

/-- A registry holding `collPets` under the name `pets`. -/
def regPets : Registry := [("pets", collPets)]

/-- A built `VectorStore` holding a single text. -/
def vsOne : VectorStore Text := ⟨fun _ => [0], fun _ => [0], some [[0]], ["a".data]⟩

/-- A PDF whose only page is whitespace: it yields zero pages after loading. -/
def fileBlank : PdfFile := ⟨"blank.pdf", ["   ".data]⟩

def fileX : PdfFile := ⟨"a.pdf", ["x".data]⟩

def fileY : PdfFile := ⟨"b.pdf", ["y".data]⟩

/-- A page whose text contains a whitespace run as long as a chunk window. -/
def pageGap : PdfLoader.Page := ⟨"doc.pdf_p1", "ab      cd".data, ⟨"doc.pdf", 1, "doc.pdf"⟩⟩

/-- A plain four-letter page. -/
def pageAbcd : PdfLoader.Page := ⟨"doc.pdf_p1", "abcd".data, ⟨"doc.pdf", 1, "doc.pdf"⟩⟩

/-- A freshly constructed (unbuilt) `VectorStore()`, as the orchestrator
makes inside `build_index`. -/
def vsNewPdf : VectorStore PdfLoader.Chunk := ⟨fun _ => [0], fun _ => [0], none, []⟩

/-- The state of a freshly constructed `AutoResearcher()`. -/
def ast0 : ARState := ⟨[], []⟩

/-! ## Lemmas about the Python string primitives -/

theorem pySplitAux_sound : ∀ (l acc : List Char), (∀ c ∈ acc, pyIsSpace c = false) →
    ∀ w ∈ pySplitAux l acc, w ≠ [] ∧ ∀ c ∈ w, pyIsSpace c = false := by
  intro l
  induction l with
  | nil =>
    intro acc hacc w hw
    simp only [pySplitAux] at hw
    by_cases h : acc.isEmpty
    · simp [h] at hw
    · rw [if_neg h, List.mem_singleton] at hw
      subst hw
      refine ⟨?_, fun c hc => hacc c (List.mem_reverse.mp hc)⟩
      simp only [ne_eq, List.reverse_eq_nil_iff]
      intro hh
      rw [hh] at h
      simp at h
  | cons a as ih =>
    intro acc hacc w hw
    simp only [pySplitAux] at hw
    by_cases hsp : pyIsSpace a
    · rw [if_pos hsp] at hw
      by_cases hacc' : acc.isEmpty
      · rw [if_pos hacc'] at hw
        exact ih [] (by simp) w hw
      · rw [if_neg hacc', List.mem_cons] at hw
        rcases hw with hw | hw
        · subst hw
          refine ⟨?_, fun c hc => hacc c (List.mem_reverse.mp hc)⟩
          simp only [ne_eq, List.reverse_eq_nil_iff]
          intro hh
          rw [hh] at hacc'
          simp at hacc'
        · exact ih [] (by simp) w hw
    · rw [if_neg hsp] at hw
      refine ih (a :: acc) ?_ w hw
      intro c hc
      rcases List.mem_cons.mp hc with rfl | hc
      · simpa using hsp
      · exact hacc c hc

theorem pySplit_sound (l : Text) :
    ∀ w ∈ pySplit l, w ≠ [] ∧ ∀ c ∈ w, pyIsSpace c = false :=
  pySplitAux_sound l [] (by simp)

theorem pyStrip_eq_nil_iff (l : Text) : pyStrip l = [] ↔ ∀ c ∈ l, pyIsSpace c = true := by
  unfold pyStrip
  rw [List.reverse_eq_nil_iff, List.dropWhile_eq_nil_iff]
  constructor
  · intro h c hc
    rcases List.mem_append.mp (by rw [List.takeWhile_append_dropWhile]; exact hc :
        c ∈ l.takeWhile pyIsSpace ++ l.dropWhile pyIsSpace) with hc' | hc'
    · exact List.mem_takeWhile_imp hc'
    · exact h c (List.mem_reverse.mpr hc')
  · intro h c hc
    exact h c ((List.dropWhile_sublist _).subset (List.mem_reverse.mp hc))

theorem drop_take_infixOf {α : Type} (l : List α) (a b : Nat) :
    InfixOf ((l.take b).drop a) l :=
  ⟨(l.take b).take a, l.drop b,
    by rw [List.take_append_drop, List.take_append_drop]⟩

theorem pySlice_infixOf {α : Type} (l : List α) (i j : Int) :
    InfixOf (pySlice l i j) l := by
  unfold pySlice
  exact drop_take_infixOf l _ _

theorem pySlice_sublist {α : Type} (l : List α) (i j : Int) :
    (pySlice l i j).Sublist l := by
  unfold pySlice
  exact (List.drop_sublist _ _).trans (List.take_sublist _ _)

theorem infixOf_trans {α : Type} {s t u : List α} (h1 : InfixOf s t) (h2 : InfixOf t u) :
    InfixOf s u := by
  obtain ⟨a, b, rfl⟩ := h1
  obtain ⟨c, d, rfl⟩ := h2
  exact ⟨c ++ a, b ++ d, by simp [List.append_assoc]⟩

theorem pyStrip_infixOf (l : Text) : InfixOf (pyStrip l) l := by
  have h1 : InfixOf (l.dropWhile pyIsSpace) l := by
    refine ⟨l.takeWhile pyIsSpace, [], ?_⟩
    rw [List.append_nil, List.takeWhile_append_dropWhile]
  have h2 : InfixOf (pyStrip l) (l.dropWhile pyIsSpace) := by
    refine ⟨[], ((l.dropWhile pyIsSpace).reverse.takeWhile pyIsSpace).reverse, ?_⟩
    rw [List.nil_append]
    unfold pyStrip
    conv_lhs => rw [← (l.dropWhile pyIsSpace).reverse_reverse]
    rw [← List.reverse_append]
    congr 1
    rw [List.takeWhile_append_dropWhile]
  exact infixOf_trans h2 h1

theorem isPrefixOf_true_iff : ∀ (s l : Text), s.isPrefixOf l = true ↔ ∃ t, l = s ++ t
  | [], l => by simp [List.isPrefixOf]
  | a :: as, [] => by simp [List.isPrefixOf]
  | a :: as, b :: bs => by
    simp only [List.isPrefixOf, Bool.and_eq_true, beq_iff_eq]
    rw [isPrefixOf_true_iff as bs]
    constructor
    · rintro ⟨rfl, t, rfl⟩
      exact ⟨t, rfl⟩
    · rintro ⟨t, h⟩
      injection h with h1 h2
      exact ⟨h1.symm, t, h2⟩

theorem containsSeq_iff (s l : Text) : containsSeq s l = true ↔ InfixOf s l := by
  unfold containsSeq
  rw [List.any_eq_true]
  constructor
  · rintro ⟨t, ht, hp⟩
    obtain ⟨u, hu⟩ := (isPrefixOf_true_iff s t).mp hp
    obtain ⟨a, ha⟩ := (List.mem_tails t l).mp ht
    exact ⟨a, u, by rw [← ha, hu, ← List.append_assoc]⟩
  · rintro ⟨a, b, rfl⟩
    refine ⟨s ++ b, ?_, ?_⟩
    · exact (List.mem_tails _ _).mpr ⟨a, by rw [← List.append_assoc]⟩
    · exact (isPrefixOf_true_iff _ _).mpr ⟨b, rfl⟩

theorem intercalate_cons_ex (sep w : Text) (ws : List Text) :
    ∃ t, List.intercalate sep (w :: ws) = w ++ t := by
  cases ws with
  | nil => exact ⟨[], by simp [List.intercalate]⟩
  | cons x xs =>
    refine ⟨sep ++ List.intercalate sep (x :: xs), ?_⟩
    simp [List.intercalate, List.intersperse, List.append_assoc]

theorem strip_intercalate_ne_nil {ws : List Text}
    (hne : ws ≠ []) (hw : ∀ w ∈ ws, w ≠ [] ∧ ∀ c ∈ w, pyIsSpace c = false) :
    pyStrip (List.intercalate [' '] ws) ≠ [] := by
  intro hnil
  rw [pyStrip_eq_nil_iff] at hnil
  obtain ⟨w, ws', rfl⟩ := List.exists_cons_of_ne_nil hne
  obtain ⟨hwne, hwsp⟩ := hw w (by simp)
  obtain ⟨c, cs, rfl⟩ := List.exists_cons_of_ne_nil hwne
  obtain ⟨t, ht⟩ := intercalate_cons_ex [' '] (c :: cs) ws'
  have hc : c ∈ List.intercalate [' '] ((c :: cs) :: ws') := by
    rw [ht]
    simp
  have h1 := hnil c hc
  have h2 := hwsp c (by simp)
  rw [h1] at h2
  exact Bool.noConfusion h2

/-! ## Lemmas about the chunking loops and their windows -/

theorem pySlice_ne_nil {α : Type} (l : List α) (i j : Int) (hi : 0 ≤ i)
    (hil : i < (l.length : Int)) (hij : i < j) : pySlice l i j ≠ [] := by
  simp only [pySlice]
  rw [if_neg (by omega : ¬ i < 0), if_neg (by omega : ¬ j < 0)]
  intro hcon
  have hlen := congrArg List.length hcon
  rw [List.length_drop, List.length_take] at hlen
  simp only [List.length_nil] at hlen
  omega

theorem chunkWindows_shape (n cs ov : Int) (fuel : Nat) (start : Int) :
    chunkWindows n cs ov fuel start = [] ∨
      ∃ e tl, chunkWindows n cs ov fuel start = (start, e) :: tl := by
  cases fuel with
  | zero => exact Or.inl rfl
  | succ f =>
    by_cases h : start < n
    · exact Or.inr ⟨min (start + cs) n,
        (if min (start + cs) n = n then []
          else chunkWindows n cs ov f (max (min (start + cs) n - ov) 0)),
        by simp only [chunkWindows, if_pos h]⟩
    · exact Or.inl (by simp only [chunkWindows, if_neg h])

theorem chunkWindows_chain (n cs ov : Int) (hov : 0 ≤ ov) (hlt : ov < cs) :
    ∀ (fuel : Nat) (start : Int), 0 ≤ start →
      List.Chain' (fun a b : Int × Int => b.1 = a.1 + (cs - ov))
        (chunkWindows n cs ov fuel start) := by
  intro fuel
  induction fuel with
  | zero => intro start _; simp [chunkWindows]
  | succ f ih =>
    intro start hstart
    by_cases h : start < n
    · simp only [chunkWindows, if_pos h]
      by_cases hen : min (start + cs) n = n
      · simp [hen]
      · rw [if_neg hen]
        have hmin : min (start + cs) n = start + cs := by omega
        have hmax : max (min (start + cs) n - ov) 0 = start + cs - ov := by omega
        rw [List.chain'_cons']
        constructor
        · intro b hb
          rcases chunkWindows_shape n cs ov f (max (min (start + cs) n - ov) 0) with hsh | ⟨e', tl, hsh⟩
          · rw [hsh] at hb
            simp at hb
          · rw [hsh] at hb
            simp only [List.head?_cons, Option.mem_some_iff] at hb
            subst hb
            simp only
            omega
        · exact ih _ (by omega)
    · simp only [chunkWindows, if_neg h]
      exact List.chain'_nil

theorem chunkWindows_cover (n cs ov : Int) (hcs : 0 < cs) (hov : 0 ≤ ov) (hlt : ov < cs) :
    ∀ (fuel : Nat) (start : Int), 0 ≤ start → (n - start).toNat < fuel →
      ∀ p : Int, start ≤ p → p < n →
        ∃ w ∈ chunkWindows n cs ov fuel start, w.1 ≤ p ∧ p < w.2 := by
  intro fuel
  induction fuel with
  | zero => intro start _ hf; omega
  | succ f ih =>
    intro start hstart hf p hsp hpn
    have h : start < n := by omega
    simp only [chunkWindows, if_pos h]
    by_cases hpe : p < min (start + cs) n
    · exact ⟨(start, min (start + cs) n), List.mem_cons_self _ _, hsp, hpe⟩
    · have hen : ¬ (min (start + cs) n = n) := by omega
      rw [if_neg hen]
      obtain ⟨w, hwmem, hww⟩ :=
        ih (max (min (start + cs) n - ov) 0) (by omega) (by omega) p (by omega) hpn
      exact ⟨w, List.mem_cons_of_mem _ hwmem, hww⟩

theorem ragLoop_total (words : List Text) (cs ov : Int) (hov : 0 ≤ ov) (hlt : ov < cs) :
    ∀ (fuel : Nat) (start : Int) (acc : List Text), 0 ≤ start →
      ((words.length : Int) - start).toNat < fuel →
      ∃ res, RagEngine.loop words cs ov fuel start acc = some res := by
  intro fuel
  induction fuel with
  | zero => intro start acc _ hf; omega
  | succ f ih =>
    intro start acc hstart hf
    simp only [RagEngine.loop]
    by_cases h : start < (words.length : Int)
    · rw [if_pos h]
      by_cases hen : min (start + cs) (words.length : Int) = (words.length : Int)
      · rw [if_pos hen]
        exact ⟨_, rfl⟩
      · rw [if_neg hen]
        exact ih _ _ (by omega) (by omega)
    · rw [if_neg h]
      exact ⟨_, rfl⟩

theorem pageLoop_total (pid : String) (meta : PdfLoader.Meta) (text : Text) (cs ov : Int)
    (hov : 0 ≤ ov) (hlt : ov < cs) :
    ∀ (fuel : Nat) (start : Int) (counter : Nat) (acc : List PdfLoader.Chunk), 0 ≤ start →
      ((text.length : Int) - start).toNat < fuel →
      ∃ out, PdfLoader.pageLoop pid meta text cs ov fuel start counter acc = some out := by
  intro fuel
  induction fuel with
  | zero => intro start counter acc _ hf; omega
  | succ f ih =>
    intro start counter acc hstart hf
    simp only [PdfLoader.pageLoop]
    by_cases h : start < (text.length : Int)
    · rw [if_pos h]
      by_cases hct : pyStrip (pySlice text start (min (start + cs) (text.length : Int))) = []
      · rw [if_pos hct]
        exact ⟨_, rfl⟩
      · rw [if_neg hct]
        by_cases hen : min (start + cs) (text.length : Int) = (text.length : Int)
        · rw [if_pos hen]
          exact ⟨_, rfl⟩
        · rw [if_neg hen]
          exact ih _ _ _ (by omega) (by omega)
    · rw [if_neg h]
      exact ⟨_, rfl⟩

theorem ragLoop_eq_windows (words : List Text) (cs ov : Int) (hcs : 0 < cs)
    (hwords : ∀ w ∈ words, w ≠ [] ∧ ∀ c ∈ w, pyIsSpace c = false) :
    ∀ (fuel : Nat) (start : Int) (acc res : List Text), 0 ≤ start →
      RagEngine.loop words cs ov fuel start acc = some res →
      res = acc ++ (chunkWindows (words.length) cs ov fuel start).map
        (fun w => List.intercalate [' '] (pySlice words w.1 w.2)) := by
  intro fuel
  induction fuel with
  | zero =>
    intro start acc res _ h
    exact absurd h (by simp [RagEngine.loop])
  | succ f ih =>
    intro start acc res hstart h
    simp only [RagEngine.loop] at h
    simp only [chunkWindows]
    by_cases hlt2 : start < (words.length : Int)
    · rw [if_pos hlt2] at h
      rw [if_pos hlt2]
      have hslice : pySlice words start (min (start + cs) (words.length : Int)) ≠ [] :=
        pySlice_ne_nil words start _ hstart hlt2 (by omega)
      have hnb : pyStrip (List.intercalate [' ']
          (pySlice words start (min (start + cs) (words.length : Int)))) ≠ [] :=
        strip_intercalate_ne_nil hslice
          (fun w hwm => hwords w ((pySlice_sublist words start _).subset hwm))
      rw [if_neg hnb] at h
      by_cases hen : min (start + cs) (words.length : Int) = (words.length : Int)
      · rw [if_pos hen] at h
        rw [if_pos hen]
        simp only [Option.some_inj] at h
        rw [← h]
        simp
      · rw [if_neg hen] at h
        rw [if_neg hen]
        have hrec := ih (max (min (start + cs) (words.length : Int) - ov) 0)
          (acc ++ [List.intercalate [' ']
            (pySlice words start (min (start + cs) (words.length : Int)))]) res
          (le_max_right _ _) h
        rw [hrec]
        simp [List.append_assoc]
    · rw [if_neg hlt2] at h
      rw [if_neg hlt2]
      simp only [Option.some_inj] at h
      simp [← h]

theorem pageLoop_texts (pid : String) (meta : PdfLoader.Meta) (text : Text) (cs ov : Int) :
    ∀ (fuel : Nat) (start : Int) (counter : Nat) (acc : List PdfLoader.Chunk)
      (out : Nat × List PdfLoader.Chunk),
      PdfLoader.pageLoop pid meta text cs ov fuel start counter acc = some out →
      out.2.map PdfLoader.Chunk.text = acc.map PdfLoader.Chunk.text ++
        (PdfLoader.charWindows text cs ov fuel start).map
          (fun w => pyStrip (pySlice text w.1 w.2)) := by
  intro fuel
  induction fuel with
  | zero =>
    intro start counter acc out h
    exact absurd h (by simp [PdfLoader.pageLoop])
  | succ f ih =>
    intro start counter acc out h
    simp only [PdfLoader.pageLoop] at h
    simp only [PdfLoader.charWindows]
    by_cases hlt2 : start < (text.length : Int)
    · rw [if_pos hlt2] at h
      rw [if_pos hlt2]
      by_cases hct : pyStrip (pySlice text start (min (start + cs) (text.length : Int))) = []
      · rw [if_pos hct] at h
        rw [if_pos hct]
        simp only [Option.some_inj] at h
        simp [← h]
      · rw [if_neg hct] at h
        rw [if_neg hct]
        by_cases hen : min (start + cs) (text.length : Int) = (text.length : Int)
        · rw [if_pos hen] at h
          rw [if_pos hen]
          simp only [Option.some_inj] at h
          rw [← h]
          simp
        · rw [if_neg hen] at h
          rw [if_neg hen]
          have hrec := ih _ _ _ _ h
          rw [hrec]
          simp [List.append_assoc]
    · rw [if_neg hlt2] at h
      rw [if_neg hlt2]
      simp only [Option.some_inj] at h
      simp [← h]

theorem charWindows_eq_chunkWindows (text : Text) (cs ov : Int)
    (hnb : ∀ s : Int, 0 ≤ s → s < (text.length : Int) →
      pyStrip (pySlice text s (min (s + cs) (text.length : Int))) ≠ []) :
    ∀ (fuel : Nat) (start : Int), 0 ≤ start →
      PdfLoader.charWindows text cs ov fuel start =
        chunkWindows (text.length) cs ov fuel start := by
  intro fuel
  induction fuel with
  | zero => intro start _; rfl
  | succ f ih =>
    intro start hstart
    simp only [PdfLoader.charWindows, chunkWindows]
    by_cases h : start < (text.length : Int)
    · rw [if_pos h, if_pos h, if_neg (hnb start hstart h)]
      by_cases hen : min (start + cs) (text.length : Int) = (text.length : Int)
      · rw [if_pos hen, if_pos hen]
      · rw [if_neg hen, if_neg hen, max_comm 0 (min (start + cs) (text.length : Int) - ov),
          ih _ (le_max_right _ _)]
    · rw [if_neg h, if_neg h]

/-! ## Invariants of the character chunker (for the substring claims) -/

theorem pageLoop_inv (pid : String) (meta : PdfLoader.Meta) (text : Text) (cs ov : Int) :
    ∀ (fuel : Nat) (start : Int) (counter : Nat) (acc : List PdfLoader.Chunk)
      (out : Nat × List PdfLoader.Chunk),
      PdfLoader.pageLoop pid meta text cs ov fuel start counter acc = some out →
      ∀ c ∈ out.2, c ∈ acc ∨ (c.text ≠ [] ∧ InfixOf c.text text) := by
  intro fuel
  induction fuel with
  | zero =>
    intro start counter acc out h
    exact absurd h (by simp [PdfLoader.pageLoop])
  | succ f ih =>
    intro start counter acc out h c hc
    simp only [PdfLoader.pageLoop] at h
    by_cases hlt2 : start < (text.length : Int)
    · rw [if_pos hlt2] at h
      by_cases hct : pyStrip (pySlice text start (min (start + cs) (text.length : Int))) = []
      · rw [if_pos hct] at h
        simp only [Option.some_inj] at h
        rw [← h] at hc
        exact Or.inl hc
      · rw [if_neg hct] at h
        by_cases hen : min (start + cs) (text.length : Int) = (text.length : Int)
        · rw [if_pos hen] at h
          simp only [Option.some_inj] at h
          rw [← h] at hc
          rcases List.mem_append.mp hc with hc' | hc'
          · exact Or.inl hc'
          · right
            rw [List.mem_singleton] at hc'
            subst hc'
            exact ⟨hct, infixOf_trans (pyStrip_infixOf _) (pySlice_infixOf text _ _)⟩
        · rw [if_neg hen] at h
          rcases ih _ _ _ _ h c hc with hmem | hgood
          · rcases List.mem_append.mp hmem with hmem' | hmem'
            · exact Or.inl hmem'
            · right
              rw [List.mem_singleton] at hmem'
              subst hmem'
              exact ⟨hct, infixOf_trans (pyStrip_infixOf _) (pySlice_infixOf text _ _)⟩
          · exact Or.inr hgood
    · rw [if_neg hlt2] at h
      simp only [Option.some_inj] at h
      rw [← h] at hc
      exact Or.inl hc

theorem chunkFold_none (cs ov : Int) (pages : List PdfLoader.Page) :
    pages.foldl (PdfLoader.chunkStep cs ov) none = none := by
  induction pages with
  | nil => rfl
  | cons p ps ih => simpa [PdfLoader.chunkStep] using ih

theorem chunkFold_inv (cs ov : Int) :
    ∀ (pages : List PdfLoader.Page) (init out : Nat × List PdfLoader.Chunk),
      pages.foldl (PdfLoader.chunkStep cs ov) (some init) = some out →
      ∀ c ∈ out.2, c ∈ init.2 ∨ (c.text ≠ [] ∧ ∃ p ∈ pages, InfixOf c.text p.text) := by
  intro pages
  induction pages with
  | nil =>
    intro init out h c hc
    simp only [List.foldl_nil, Option.some_inj] at h
    rw [← h] at hc
    exact Or.inl hc
  | cons p ps ih =>
    intro init out h c hc
    obtain ⟨ctr, chs⟩ := init
    rw [List.foldl_cons] at h
    cases hstep : PdfLoader.pageLoop p.id p.metadata p.text cs ov (p.text.length + 1) 0 ctr chs with
    | none =>
      rw [show PdfLoader.chunkStep cs ov (some (ctr, chs)) p =
        PdfLoader.pageLoop p.id p.metadata p.text cs ov (p.text.length + 1) 0 ctr chs from rfl,
        hstep, chunkFold_none] at h
      exact absurd h (by simp)
    | some mid =>
      rw [show PdfLoader.chunkStep cs ov (some (ctr, chs)) p =
        PdfLoader.pageLoop p.id p.metadata p.text cs ov (p.text.length + 1) 0 ctr chs from rfl,
        hstep] at h
      rcases ih mid out h c hc with hmem | hgood
      · rcases pageLoop_inv p.id p.metadata p.text cs ov _ _ _ _ _ hstep c hmem with hm | hg
        · exact Or.inl hm
        · exact Or.inr ⟨hg.1, p, List.mem_cons_self _ _, hg.2⟩
      · obtain ⟨hne, pp, hpp, hinf⟩ := hgood
        exact Or.inr ⟨hne, pp, List.mem_cons_of_mem _ hpp, hinf⟩

theorem chunkFold_total (cs ov : Int) (hov : 0 ≤ ov) (hlt : ov < cs) :
    ∀ (pages : List PdfLoader.Page) (init : Nat × List PdfLoader.Chunk),
      ∃ out, pages.foldl (PdfLoader.chunkStep cs ov) (some init) = some out := by
  intro pages
  induction pages with
  | nil =>
    intro init
    exact ⟨init, rfl⟩
  | cons p ps ih =>
    intro init
    obtain ⟨ctr, chs⟩ := init
    obtain ⟨mid, hmid⟩ := pageLoop_total p.id p.metadata p.text cs ov hov hlt
      (p.text.length + 1) 0 ctr chs le_rfl (by omega)
    rw [List.foldl_cons,
      show PdfLoader.chunkStep cs ov (some (ctr, chs)) p =
        PdfLoader.pageLoop p.id p.metadata p.text cs ov (p.text.length + 1) 0 ctr chs from rfl,
      hmid]
    exact ih mid

theorem pageLoop_blank (pid : String) (meta : PdfLoader.Meta) (text : Text) (cs ov : Int)
    (hbl : ∀ c ∈ text, pyIsSpace c = true) (f : Nat) (counter : Nat)
    (acc : List PdfLoader.Chunk) :
    PdfLoader.pageLoop pid meta text cs ov (f + 1) 0 counter acc = some (counter, acc) := by
  simp only [PdfLoader.pageLoop]
  by_cases h : (0 : Int) < (text.length : Int)
  · rw [if_pos h]
    have hct : pyStrip (pySlice text 0 (min (0 + cs) (text.length : Int))) = [] := by
      rw [pyStrip_eq_nil_iff]
      intro c hc
      exact hbl c ((pySlice_sublist text _ _).subset hc)
    rw [if_pos hct]
  · rw [if_neg h]

/-! ## Lemmas about the autoresearcher word chunker -/

theorem stride_lt_of_lt_ceilDiv (n size j : Nat) (hsize : 0 < size)
    (hj : j < (n + size - 1) / size) : j * size < n := by
  rcases Nat.eq_zero_or_pos n with rfl | hn
  · rw [Nat.div_eq_of_lt (by omega)] at hj
    omega
  · have h1 : (j + 1) * size ≤ ((n + size - 1) / size) * size :=
      Nat.mul_le_mul_right _ (by omega)
    have h2 : ((n + size - 1) / size) * size ≤ n + size - 1 := Nat.div_mul_le_self _ _
    have h13 : j * size + size ≤ n + size - 1 := by
      calc j * size + size = (j + 1) * size := by ring
        _ ≤ ((n + size - 1) / size) * size := h1
        _ ≤ n + size - 1 := h2
    set m := j * size with hm
    omega

theorem ARRag_chunk_nonempty (texts : List Text) (size : Nat) (hsize : 0 < size) :
    ∀ c ∈ ARRag.chunk texts size, c ≠ [] := by
  intro c hc
  simp only [ARRag.chunk] at hc
  rw [List.mem_flatten] at hc
  obtain ⟨inner, hinner, hcin⟩ := hc
  rw [List.mem_map] at hinner
  obtain ⟨t, ht, rfl⟩ := hinner
  rw [List.mem_map] at hcin
  obtain ⟨i, hi, rfl⟩ := hcin
  rw [List.mem_map] at hi
  obtain ⟨j, hj, rfl⟩ := hi
  rw [List.mem_range] at hj
  have hlt : j * size < (pySplit t).length := stride_lt_of_lt_ceilDiv _ _ _ hsize hj
  have hslice : pySlice (pySplit t) (Int.ofNat (j * size)) (Int.ofNat (j * size) + (size : Int)) ≠ [] :=
    pySlice_ne_nil _ _ _ (Int.ofNat_nonneg _) (Int.ofNat_lt.mpr hlt)
      (by have := hsize; omega)
  obtain ⟨w, ws, hws⟩ := List.exists_cons_of_ne_nil hslice
  rw [hws]
  obtain ⟨tl, htl⟩ := intercalate_cons_ex [' '] w ws
  rw [htl]
  have hwmem : w ∈ pySplit t := ((pySlice_sublist (pySplit t) _ _).subset (by rw [hws]; simp))
  have hwne := (pySplit_sound t w hwmem).1
  intro hcon
  rw [List.append_eq_nil] at hcon
  exact hwne hcon.1

theorem ARRag_chunk_blank (texts : List Text) (size : Nat)
    (hbl : ∀ t ∈ texts, pySplit t = []) : ARRag.chunk texts size = [] := by
  simp only [ARRag.chunk]
  rw [List.flatten_eq_nil_iff]
  intro inner hinner
  simp only [List.mem_map] at hinner
  obtain ⟨t, ht, rfl⟩ := hinner
  rw [hbl t ht]
  have hk : (([] : List Text).length + size - 1) / size = 0 := by
    simp only [List.length_nil]
    cases size with
    | zero => rfl
    | succ s => exact Nat.div_eq_of_lt (by omega)
  rw [hk]
  rfl

/-! ## Lemmas about the FAISS model and retrieval -/

theorem filterMap_eq_map_of_all_some {α β : Type} (l : List α) (f : α → Option β) (g : α → β)
    (h : ∀ x ∈ l, f x = some (g x)) : l.filterMap f = l.map g := by
  induction l with
  | nil => rfl
  | cons a as ih =>
    have ha := h a (List.mem_cons_self a as)
    simp [List.filterMap_cons, ha, ih (fun x hx => h x (List.mem_cons_of_mem a hx))]

theorem filterMap_eq_nil_of_all_none {α β : Type} (l : List α) (f : α → Option β)
    (h : ∀ x ∈ l, f x = none) : l.filterMap f = [] := by
  induction l with
  | nil => rfl
  | cons a as ih =>
    have ha := h a (List.mem_cons_self a as)
    simp [List.filterMap_cons, ha, ih (fun x hx => h x (List.mem_cons_of_mem a hx))]

theorem rankPairs_length (store : List Vec) (q : Vec) :
    (rankPairs store q).length = store.length := by
  simp [rankPairs, scored]

theorem rankPairs_mem_bounds (store : List Vec) (q : Vec) :
    ∀ p ∈ rankPairs store q, 0 ≤ p.1 ∧ p.1 < (store.length : Int) := by
  intro p hp
  rw [rankPairs, List.mem_insertionSort] at hp
  simp only [scored, List.mem_map, List.mem_range] at hp
  obtain ⟨i, hi, rfl⟩ := hp
  constructor
  · exact Int.ofNat_nonneg i
  · exact Int.ofNat_lt.mpr hi

theorem rankPairs_sorted (store : List Vec) (q : Vec) :
    List.Sorted distLe (rankPairs store q) :=
  List.sorted_insertionSort distLe (scored store q)

theorem faissSearchE_pos (store : List Vec) (q : Vec) (k : Nat) (hk : 1 ≤ k) :
    faissSearchE store q k = .ok (faissSearch store q k) := by
  simp only [faissSearchE]
  rw [if_neg (by omega)]

/-! ## Permutation invariance of the sorted loader -/

theorem insertionSort_perm_nodup_eq (l1 l2 : List PdfFile) (hperm : l1.Perm l2)
    (hnodup : (l1.map PdfFile.name).Nodup) :
    List.insertionSort (fun a b => a.name ≤ b.name) l1 =
      List.insertionSort (fun a b => a.name ≤ b.name) l2 := by
  haveI : IsTotal PdfFile (fun a b => a.name ≤ b.name) := ⟨fun a b => le_total a.name b.name⟩
  haveI : IsTrans PdfFile (fun a b => a.name ≤ b.name) := ⟨fun a b c h1 h2 => le_trans h1 h2⟩
  haveI : IsAntisymm PdfFile (fun a b : PdfFile => a.name < b.name ∨ a = b) := ⟨by
    intro a b hab hba
    rcases hab with h1 | h1
    · rcases hba with h2 | h2
      · exact absurd h2 (lt_asymm h1)
      · exact h2.symm
    · exact h1⟩
  have hs1 : List.Sorted (fun a b => a.name ≤ b.name)
      (List.insertionSort (fun a b => a.name ≤ b.name) l1) :=
    List.sorted_insertionSort _ l1
  have hs2 : List.Sorted (fun a b => a.name ≤ b.name)
      (List.insertionSort (fun a b => a.name ≤ b.name) l2) :=
    List.sorted_insertionSort _ l2
  have hnodup2 : (l2.map PdfFile.name).Nodup := ((hperm.map _).nodup_iff).mp hnodup
  have pw1 : (List.insertionSort (fun a b => a.name ≤ b.name) l1).Pairwise
      (fun a b => a.name ≠ b.name) := by
    have hh : ((List.insertionSort (fun a b => a.name ≤ b.name) l1).map PdfFile.name).Pairwise
        (fun a b => a ≠ b) :=
      ((List.perm_insertionSort _ l1).map _).nodup_iff.mpr hnodup
    exact List.pairwise_map.mp hh
  have pw2 : (List.insertionSort (fun a b => a.name ≤ b.name) l2).Pairwise
      (fun a b => a.name ≠ b.name) := by
    have hh : ((List.insertionSort (fun a b => a.name ≤ b.name) l2).map PdfFile.name).Pairwise
        (fun a b => a ≠ b) :=
      ((List.perm_insertionSort _ l2).map _).nodup_iff.mpr hnodup2
    exact List.pairwise_map.mp hh
  have sr1 : List.Sorted (fun a b : PdfFile => a.name < b.name ∨ a = b)
      (List.insertionSort (fun a b => a.name ≤ b.name) l1) :=
    (hs1.and pw1).imp (fun h => Or.inl (lt_of_le_of_ne h.1 h.2))
  have sr2 : List.Sorted (fun a b : PdfFile => a.name < b.name ∨ a = b)
      (List.insertionSort (fun a b => a.name ≤ b.name) l2) :=
    (hs2.and pw2).imp (fun h => Or.inl (lt_of_le_of_ne h.1 h.2))
  have hp : (List.insertionSort (fun a b => a.name ≤ b.name) l1).Perm
      (List.insertionSort (fun a b => a.name ≤ b.name) l2) :=
    (List.perm_insertionSort _ l1).trans (hperm.trans (List.perm_insertionSort _ l2).symm)
  exact List.eq_of_perm_of_sorted hp sr1 sr2

/-! ## Additional helper lemmas for the invalid-configuration claims -/

theorem pySlice_self_nil {α : Type} (l : List α) (i : Int) : pySlice l i i = [] := by
  simp only [pySlice]
  apply List.drop_eq_nil_of_le
  rw [List.length_take]
  exact Nat.min_le_left _ _

theorem ragLoop_zero_cs_neg_ov (words : List Text) (ov : Int) (hov : ov < 0) :
    ∀ (fuel : Nat) (start : Int) (acc : List Text), 0 ≤ start →
      ((words.length : Int) - start).toNat < fuel →
      RagEngine.loop words 0 ov fuel start acc = some acc := by
  intro fuel
  induction fuel with
  | zero => intro start acc _ h; omega
  | succ f ih =>
    intro start acc hstart hf
    simp only [RagEngine.loop]
    by_cases h : start < (words.length : Int)
    · rw [if_pos h]
      have he : min (start + 0) (words.length : Int) = start := by omega
      rw [he, pySlice_self_nil]
      have hint : List.intercalate [' '] ([] : List Text) = [] := rfl
      rw [hint]
      have hps : pyStrip ([] : Text) = [] := rfl
      rw [hps, if_pos (rfl : ([] : Text) = [])]
      rw [if_neg (by omega : ¬ start = (words.length : Int))]
      exact ih (max (start - ov) 0) acc (by omega) (by omega)
    · rw [if_neg h]

theorem ragLoop_zero_zero_stuck (words : List Text) (hw : words ≠ []) :
    ∀ (fuel : Nat) (acc : List Text), RagEngine.loop words 0 0 fuel 0 acc = none := by
  intro fuel
  induction fuel with
  | zero => intro acc; rfl
  | succ f ih =>
    intro acc
    simp only [RagEngine.loop]
    have h : (0 : Int) < (words.length : Int) := by
      have := List.length_pos.mpr hw
      omega
    rw [if_pos h]
    have he : min ((0 : Int) + 0) (words.length : Int) = 0 := by omega
    rw [he, pySlice_self_nil]
    have hint : List.intercalate [' '] ([] : List Text) = [] := rfl
    rw [hint]
    have hps : pyStrip ([] : Text) = [] := rfl
    rw [hps, if_pos (rfl : ([] : Text) = [])]
    rw [if_neg (by omega : ¬ (0 : Int) = (words.length : Int))]
    have hmax : max ((0 : Int) - 0) 0 = 0 := by omega
    rw [hmax]
    exact ih acc

/-! ## Claim C10 -/

/-- C10: every call to `AutoResearcher.answer` raises, regardless of
arguments and registry state: an unknown index name raises `ValueError`,
and otherwise the attribute access `self.vector_store` — undefined, since
`__init__` only defines `vectorstores` — raises `AttributeError` (evaluated
before the undefined name `question`), so no call ever returns an answer
text. -/
theorem autoresearcher_answer_always_fails (st : ARState) (query index_name : String) :
    (Orchestrator.answer st query index_name).isOk = false := by
  unfold Orchestrator.answer
  cases st.vectorstores.lookup index_name <;> rfl

/-! ## Claim C4 -/

/-- C4: for every page text and every configuration with `chunk_size > 0`
and `0 ≤ overlap < chunk_size`, both chunking loops terminate (`some` within
fuel `n + 1`): the start offset strictly advances by
`chunk_size - overlap ≥ 1` each iteration. -/
theorem chunk_loops_terminate (cs ov : Int) (hcs : 0 < cs) (hov : 0 ≤ ov) (hlt : ov < cs) :
    (∀ text : Text, (RagEngine.simple_chunk text cs ov).isSome = true) ∧
    (∀ pages : List PdfLoader.Page, (PdfLoader.simple_chunk pages cs ov).isSome = true) := by
  constructor
  · intro text
    obtain ⟨res, hres⟩ := ragLoop_total (pySplit text) cs ov hov hlt
      ((pySplit text).length + 1) 0 [] le_rfl (by omega)
    simp [RagEngine.simple_chunk, hres]
  · intro pages
    obtain ⟨out, hout⟩ := chunkFold_total cs ov hov hlt pages (0, [])
    simp [PdfLoader.simple_chunk, hout]

/-- Witness for C4 at the engines' default configurations. -/
theorem chunk_loops_terminate_witness :
    (0 : Int) < 800 ∧ (0 : Int) ≤ 200 ∧ (200 : Int) < 800 ∧
    (RagEngine.simple_chunk "hello world".data 800 200).isSome = true ∧
    (PdfLoader.simple_chunk [pageAbcd] 800 100).isSome = true := by
  refine ⟨by norm_num, by norm_num, by norm_num, ?_, ?_⟩
  · exact (chunk_loops_terminate 800 200 (by norm_num) (by norm_num) (by norm_num)).1 _
  · exact (chunk_loops_terminate 800 100 (by norm_num) (by norm_num) (by norm_num)).2 _

/-! ## Claim C3 -/

/-- C3 counterexample: `chunk_size = 0` (so the claim demands a
`ConfigError`) with `overlap = -1`, on the one-word text `"a"`: the word
chunker returns the empty chunk list normally.  No exception is raised —
the sources validate nothing and contain no `raise` (and no `ConfigError`
class exists anywhere in the repository). -/
theorem invalid_config_returns_normally :
    RagEngine.simple_chunk ['a'] 0 (-1) = some [] ∧ ¬ ((0 : Int) > 0) := by
  exact ⟨by decide, by norm_num⟩

/-- C3 (amended): the chunkers perform no configuration validation and can
signal no `ConfigError`: with `chunk_size = 0` and any `overlap < 0` the
word chunker returns the empty chunk list normally on every text, and with
`chunk_size = 0, overlap = 0` on any text with at least one word the loop
never terminates (modelled as fuel exhaustion, `none`); it never raises. -/
theorem chunkers_never_signal_config_error (text : Text) (ov : Int) (hov : ov < 0) :
    RagEngine.simple_chunk text 0 ov = some [] ∧
    (pySplit text ≠ [] → RagEngine.simple_chunk text 0 0 = none) := by
  constructor
  · exact ragLoop_zero_cs_neg_ov (pySplit text) ov hov _ 0 [] le_rfl (by omega)
  · intro hne
    exact ragLoop_zero_zero_stuck (pySplit text) hne _ []

/-- Witness for the amended C3. -/
theorem chunkers_never_signal_config_error_witness :
    (-1 : Int) < 0 ∧ RagEngine.simple_chunk ['a', ' ', 'b'] 0 (-1) = some [] ∧
      RagEngine.simple_chunk ['a', ' ', 'b'] 0 0 = none := by
  have h := chunkers_never_signal_config_error ['a', ' ', 'b'] (-1) (by norm_num)
  exact ⟨by norm_num, h.1, h.2 (by decide)⟩

/-! ## Claim C5 -/

/-- C5: every failing `build_index` leaves the registry exactly as it was —
in both engines all `raise` statements precede the single registry mutation
— and the zero-pages failure ("No PDF pages extracted.") and zero-chunks
failure ("No text chunks created.") are distinct error values, so callers
can tell the two apart. -/
theorem failed_build_leaves_registry_unchanged
    (enc : Text → Vec) (st : Registry) (vsNew : VectorStore PdfLoader.Chunk) (ast : ARState)
    (name : String) (folder : Option (List PdfFile)) :
    ((RagEngine.build_index enc st name folder).2.isOk = false →
      (RagEngine.build_index enc st name folder).1 = st) ∧
    ((Orchestrator.build_index vsNew ast name folder).2.isOk = false →
      (Orchestrator.build_index vsNew ast name folder).1 = ast) ∧
    (PdfLoader.load_pdfs folder = .ok [] →
      (Orchestrator.build_index vsNew ast name folder).2 =
        .error (.valueError "No PDF pages extracted.")) ∧
    (∀ pages : List PdfLoader.Page, PdfLoader.load_pdfs folder = .ok pages → pages ≠ [] →
      (PdfLoader.simple_chunk pages 800 100).getD [] = [] →
      (Orchestrator.build_index vsNew ast name folder).2 =
        .error (.valueError "No text chunks created.")) ∧
    PyErr.valueError "No PDF pages extracted." ≠ PyErr.valueError "No text chunks created." := by
  refine ⟨?_, ?_, ?_, ?_, by decide⟩
  · intro hfail
    cases folder with
    | none => rfl
    | some files =>
      simp only [RagEngine.build_index] at hfail ⊢
      by_cases hp : (RagEngine.list_pdfs files).isEmpty
      · rw [if_pos hp] at hfail ⊢
      · rw [if_neg hp] at hfail ⊢
        by_cases hc : (((RagEngine.list_pdfs files).map
            (fun f => (RagEngine.simple_chunk (RagEngine.load_pdf_text f) 800 200).getD
              [])).flatten).isEmpty
        · rw [if_pos hc] at hfail ⊢
        · rw [if_neg hc] at hfail
          exact absurd hfail (by simp [Except.isOk, Except.toBool])
  · intro hfail
    cases hload : PdfLoader.load_pdfs folder with
    | error e =>
      simp only [Orchestrator.build_index, hload]
    | ok pages =>
      simp only [Orchestrator.build_index, hload] at hfail ⊢
      by_cases hp : pages.isEmpty
      · rw [if_pos hp] at hfail ⊢
      · rw [if_neg hp] at hfail ⊢
        by_cases hc : ((PdfLoader.simple_chunk pages 800 100).getD []).isEmpty
        · rw [if_pos hc] at hfail ⊢
        · rw [if_neg hc] at hfail
          exact absurd hfail (by simp [Except.isOk, Except.toBool])
  · intro hload
    simp only [Orchestrator.build_index, hload]
    rfl
  · intro pages hload hne hch
    simp only [Orchestrator.build_index, hload]
    rw [if_neg (by simpa using hne), if_pos (by simpa using hch)]

/-- Witness for C5: a folder whose single PDF has only a blank page — the
load yields zero pages, the build fails with the zero-pages error, and the
registry is unchanged. -/
theorem failed_build_leaves_registry_unchanged_witness :
    (Orchestrator.build_index vsNewPdf ast0 "kb" (some [fileBlank])).2 =
      .error (.valueError "No PDF pages extracted.") ∧
    (Orchestrator.build_index vsNewPdf ast0 "kb" (some [fileBlank])).1 = ast0 := by
  have h := failed_build_leaves_registry_unchanged encZero [] vsNewPdf ast0 "kb"
    (some [fileBlank])
  have hload : PdfLoader.load_pdfs (some [fileBlank]) = .ok [] := by decide
  have herr := h.2.2.1 hload
  refine ⟨herr, h.2.1 ?_⟩
  rw [herr]
  rfl

/-! ## Claim C8 -/

/-- C8: generation-backend failures during the answer path are caught
inside `call_ollama` and converted into visible "[OLLAMA ERROR] ..." text
embedded in the returned answer; `RAGEngine.answer` returns `.ok` for every
backend outcome once the collection exists, never propagating the backend
exception. -/
theorem answer_embeds_backend_failure (enc : Text → Vec) (st : Registry) (name : String)
    (question : Text) (top_k : Nat) (data : IdxData)
    (hfound : st.lookup name = some data) (hk : 1 ≤ top_k) :
    (∀ backend : Text → Except String Text,
      (RagEngine.answer enc backend st name question top_k).isOk = true) ∧
    (∀ emsg : String, ∀ backend : Text → Except String Text,
      (∀ p, backend p = .error emsg) →
      ∃ t, RagEngine.answer enc backend st name question top_k = .ok t ∧
        InfixOf ("[OLLAMA ERROR] ").data t) := by
  have hsE := faissSearchE_pos data.embeddings (enc question) top_k hk
  constructor
  · intro backend
    simp [RagEngine.answer, RagEngine.query, hfound, hsE, Except.isOk, Except.toBool]
  · intro emsg backend hdown
    refine ⟨("[OLLAMA ERROR] ").data ++ emsg.data, ?_, [], emsg.data, rfl⟩
    simp [RagEngine.answer, RagEngine.query, hfound, hsE, LlmClient.call_llm,
      LlmClient.call_ollama, hdown]

/-- Witness for C8 with a backend whose HTTP call always fails. -/
theorem answer_embeds_backend_failure_witness :
    (RagEngine.answer encZero backendDown regPets "pets" "q".data 5).isOk = true ∧
    ∃ t, RagEngine.answer encZero backendDown regPets "pets" "q".data 5 = .ok t ∧
      InfixOf ("[OLLAMA ERROR] ").data t := by
  have h := answer_embeds_backend_failure encZero regPets "pets" "q".data 5 collPets (by rfl)
    (by norm_num)
  exact ⟨h.1 backendDown, h.2 "connection refused" backendDown (fun p => rfl)⟩

/-! ## Claim C9 -/

set_option maxRecDepth 100000 in
/-- C9 (amended): with `top_k = 0` retrieval does not degrade gracefully —
FAISS asserts `k > 0`, so `query` raises `RuntimeError`, `answer`
propagates it, and the generation backend is never called.  Moreover no
"no context available" note exists anywhere: the prompt template around
empty question and empty context (the bare template) does not contain that
text, so no prompt ever carries the claimed note beyond what the caller's
own question supplies. -/
theorem topk_zero_query_raises_no_note (enc : Text → Vec)
    (backend : Text → Except String Text) (st : Registry) (name : String)
    (question : Text) (data : IdxData) (hfound : st.lookup name = some data) :
    RagEngine.answer enc backend st name question 0 =
      .error (.runtimeError "Error in faiss::Index::search: k > 0") ∧
    containsSeq "no context available".data (RagEngine.promptOf [] []) = false := by
  constructor
  · simp [RagEngine.answer, RagEngine.query, hfound, faissSearchE]
  · decide

/-- Witness for the amended C9. -/
theorem topk_zero_query_raises_no_note_witness :
    RagEngine.answer encZero backendEcho regPets "pets" "q".data 0 =
      .error (.runtimeError "Error in faiss::Index::search: k > 0") ∧
    containsSeq "no context available".data (RagEngine.promptOf [] []) = false :=
  topk_zero_query_raises_no_note encZero backendEcho regPets "pets" "q".data collPets rfl

/-- C9 counterexample: at `top_k = 0` on a registered collection the answer
operation FAILS — `index.search(q_emb, 0)` raises inside FAISS before any
prompt is assembled — instead of calling the backend with a
"no context available" note: even an always-succeeding echo backend never
produces a reply. -/
theorem topk_zero_answer_fails :
    RagEngine.answer encZero backendEcho regPets "pets" "q".data 0 =
      .error (.runtimeError "Error in faiss::Index::search: k > 0") ∧
    (RagEngine.answer encZero backendEcho regPets "pets" "q".data 0).isOk = false := by
  exact ⟨by decide, by decide⟩

/-! ## Claim C6 -/

/-- C6 (amended): the autoresearcher build is deterministic even though
`os.listdir` enumerates the folder in arbitrary order, because `list_pdfs`
sorts the file names: any two listings of the same files (permutations,
with distinct file names) produce identical registries, hence byte-identical
chunk id sequences.  The top-level `RAGEngine` does not sort, so its stored
chunk sequence depends on the enumeration order (see counterexample);
its chunks carry no ids at all. -/
theorem autoresearcher_build_perm_invariant (vsNew : VectorStore PdfLoader.Chunk)
    (st : ARState) (name : String) (l1 l2 : List PdfFile) (hperm : l1.Perm l2)
    (hnodup : (l1.map PdfFile.name).Nodup) :
    Orchestrator.build_index vsNew st name (some l1) =
      Orchestrator.build_index vsNew st name (some l2) := by
  have hsub : ((l1.filter (fun f => isPdfName f.name)).map PdfFile.name).Sublist
      (l1.map PdfFile.name) := (List.filter_sublist l1).map PdfFile.name
  have hsort := insertionSort_perm_nodup_eq (l1.filter (fun f => isPdfName f.name))
    (l2.filter (fun f => isPdfName f.name)) (hperm.filter _) (hnodup.sublist hsub)
  simp only [Orchestrator.build_index, PdfLoader.load_pdfs, PdfLoader.list_pdfs, hsort]

/-- Witness for the amended C6: two opposite enumeration orders of the same
two files build identical registries. -/
theorem autoresearcher_build_perm_invariant_witness :
    Orchestrator.build_index vsNewPdf ast0 "docs" (some [fileX, fileY]) =
      Orchestrator.build_index vsNewPdf ast0 "docs" (some [fileY, fileX]) :=
  autoresearcher_build_perm_invariant vsNewPdf ast0 "docs" [fileX, fileY] [fileY, fileX]
    (List.Perm.swap fileY fileX []) (by decide)

/-- C6 counterexample: the top-level `RAGEngine.build_index` does not sort
`os.listdir`'s arbitrary-order listing — two listings of the SAME folder
(permutations of each other) store different chunk sequences, so rebuilds
are not order-independent. -/
theorem ragengine_build_order_dependent :
    ([fileX, fileY] : List PdfFile).Perm [fileY, fileX] ∧
    ((RagEngine.build_index encZero [] "docs" (some [fileX, fileY])).1.lookup "docs").map
        (fun d => d.chunks) ≠
      ((RagEngine.build_index encZero [] "docs" (some [fileY, fileX])).1.lookup "docs").map
        (fun d => d.chunks) := by
  exact ⟨List.Perm.swap fileY fileX [], by decide⟩

/-! ## Claim C7 -/

/-- C7 (amended): every chunk produced by the character chunker
(`pdf_loader.simple_chunk`) has nonempty text that is a contiguous substring
of some input page's text, and a whitespace-only page yields no chunks; the
autoresearcher word chunker (`RAGEngine.chunk`) also produces only nonempty
chunks and yields none on blank pages, but its chunk text is the page's
words re-joined with single spaces, which need NOT be a contiguous
substring of the page (see counterexample). -/
theorem chunk_text_nonempty_and_pdf_substring (cs ov : Int) (size : Nat) (hsize : 0 < size) :
    (∀ (pages : List PdfLoader.Page) (res : List PdfLoader.Chunk),
      PdfLoader.simple_chunk pages cs ov = some res →
      ∀ c ∈ res, c.text ≠ [] ∧ ∃ p ∈ pages, InfixOf c.text p.text) ∧
    (∀ page : PdfLoader.Page, (∀ ch ∈ page.text, pyIsSpace ch = true) →
      PdfLoader.simple_chunk [page] cs ov = some []) ∧
    (∀ texts : List Text, ∀ c ∈ ARRag.chunk texts size, c ≠ []) ∧
    (∀ texts : List Text, (∀ t ∈ texts, pySplit t = []) → ARRag.chunk texts size = []) := by
  refine ⟨?_, ?_, fun texts => ARRag_chunk_nonempty texts size hsize,
    fun texts h => ARRag_chunk_blank texts size h⟩
  · intro pages res hres c hc
    simp only [PdfLoader.simple_chunk] at hres
    cases hfold : pages.foldl (PdfLoader.chunkStep cs ov) (some (0, [])) with
    | none =>
      rw [hfold] at hres
      exact absurd hres (by simp)
    | some out =>
      rw [hfold] at hres
      simp only [Option.map_some', Option.some_inj] at hres
      rcases chunkFold_inv cs ov pages (0, []) out hfold c (by rw [hres]; exact hc)
        with hmem | hgood
      · simp at hmem
      · exact hgood
  · intro page hbl
    simp only [PdfLoader.simple_chunk, List.foldl_cons, List.foldl_nil]
    rw [show PdfLoader.chunkStep cs ov (some (0, [])) page =
      PdfLoader.pageLoop page.id page.metadata page.text cs ov (page.text.length + 1) 0 0 []
      from rfl,
      pageLoop_blank page.id page.metadata page.text cs ov hbl page.text.length 0 []]
    rfl

/-- Witness for the amended C7 on a concrete chunk and a blank page. -/
theorem chunk_text_nonempty_and_pdf_substring_witness :
    ("a b".data ≠ ([] : Text)) ∧
    PdfLoader.simple_chunk [⟨"doc.pdf_p1", "   ".data, ⟨"doc.pdf", 1, "doc.pdf"⟩⟩] 800 100 =
      some [] := by
  have h := chunk_text_nonempty_and_pdf_substring 800 100 500 (by norm_num)
  exact ⟨h.2.2.1 ["a b".data] "a b".data (by decide), h.2.1 _ (by decide)⟩

/-- C7 counterexample: the autoresearcher word chunker on the one-page text
`"a\nb"` emits the chunk `"a b"` (words re-joined with a single space),
which is NOT a contiguous substring of the page text — `containsSeq_iff`
identifies `containsSeq _ _ = false` with the absence of the `InfixOf`
substring relation. -/
theorem word_chunk_not_substring :
    ARRag.chunk ["a\nb".data] 500 = ["a b".data] ∧
    containsSeq "a b".data "a\nb".data = false := by
  exact ⟨by decide, by decide⟩

/-! ## Claim C1 -/

/-- C1 (amended): `RAGEngine.query` on a registered collection with
requested `k ≥ 1` never rejects an oversized `k`: it returns `.ok` with the
chunks of the `min k n` nearest stored vectors, in non-decreasing distance
order — FAISS's `-1` padding labels are filtered out by the bound check.
`VectorStore.search` performs no such check and, for `k > n`, returns `k`
results padded with the last stored chunk (see counterexample). -/
theorem query_clamps_topk_and_sorts (enc : Text → Vec) (st : Registry) (name : String)
    (question : Text) (k : Nat) (data : IdxData)
    (hfound : st.lookup name = some data)
    (hlen : data.embeddings.length = data.chunks.length)
    (hk : 1 ≤ k) :
    RagEngine.query enc st name question k =
      .ok (List.intercalate "\n\n---\n\n".data
          (((rankPairs data.embeddings (enc question)).take k).map
            (fun p => data.chunks.getD p.1.toNat [])),
        ((rankPairs data.embeddings (enc question)).take k).map
          (fun p => data.chunks.getD p.1.toNat [])) ∧
    (((rankPairs data.embeddings (enc question)).take k).map
        (fun p => data.chunks.getD p.1.toNat [])).length = min k data.chunks.length ∧
    List.Sorted (fun a b : Rat => a ≤ b)
      (((rankPairs data.embeddings (enc question)).take k).map (fun p => p.2)) := by
  have hbounds := rankPairs_mem_bounds data.embeddings (enc question)
  have hsel : ((faissSearch data.embeddings (enc question) k).map (fun p => p.1)).filterMap
      (fun idx => if 0 ≤ idx ∧ idx < (data.chunks.length : Int)
        then data.chunks.get? idx.toNat else none) =
      ((rankPairs data.embeddings (enc question)).take k).map
        (fun p => data.chunks.getD p.1.toNat []) := by
    unfold faissSearch
    rw [List.map_append, List.filterMap_append]
    have hpad : ((List.replicate (k - data.embeddings.length)
        ((-1 : Int), faissPadDist)).map (fun p => p.1)).filterMap
        (fun idx => if 0 ≤ idx ∧ idx < (data.chunks.length : Int)
          then data.chunks.get? idx.toNat else none) = [] := by
      apply filterMap_eq_nil_of_all_none
      intro x hx
      rw [List.map_replicate] at hx
      rw [List.eq_of_mem_replicate hx]
      rw [if_neg]
      rintro ⟨h01, -⟩
      omega
    rw [hpad, List.append_nil, List.filterMap_map]
    apply filterMap_eq_map_of_all_some
    intro p hp
    have hb := hbounds p (List.mem_of_mem_take hp)
    have hlt : p.1.toNat < data.chunks.length := by omega
    have hcond : 0 ≤ p.1 ∧ p.1 < (data.chunks.length : Int) := ⟨hb.1, by omega⟩
    show (if 0 ≤ p.1 ∧ p.1 < (data.chunks.length : Int)
      then data.chunks.get? p.1.toNat else none) = some (data.chunks.getD p.1.toNat [])
    rw [if_pos hcond, List.get?_eq_get hlt]
    exact congrArg some (List.getD_eq_get data.chunks [] hlt).symm
  refine ⟨?_, ?_, ?_⟩
  · simp only [RagEngine.query, hfound, faissSearchE_pos data.embeddings (enc question) k hk]
    rw [hsel]
  · rw [List.length_map, List.length_take, rankPairs_length, hlen]
  · have hsorted := rankPairs_sorted data.embeddings (enc question)
    have htake : List.Sorted distLe ((rankPairs data.embeddings (enc question)).take k) :=
      hsorted.sublist (List.take_sublist _ _)
    exact List.pairwise_map.mpr htake

/-- Witness for the amended C1 on a concrete one-chunk collection with
`k = 5`. -/
theorem query_clamps_topk_and_sorts_witness :
    RagEngine.query encZero regPets "pets" "q".data 5 =
      .ok (List.intercalate "\n\n---\n\n".data
          (((rankPairs collPets.embeddings (encZero "q".data)).take 5).map
            (fun p => collPets.chunks.getD p.1.toNat [])),
        ((rankPairs collPets.embeddings (encZero "q".data)).take 5).map
          (fun p => collPets.chunks.getD p.1.toNat [])) ∧
    (((rankPairs collPets.embeddings (encZero "q".data)).take 5).map
        (fun p => collPets.chunks.getD p.1.toNat [])).length = min 5 collPets.chunks.length ∧
    List.Sorted (fun a b : Rat => a ≤ b)
      (((rankPairs collPets.embeddings (encZero "q".data)).take 5).map (fun p => p.2)) :=
  query_clamps_topk_and_sorts encZero regPets "pets" "q".data 5 collPets rfl rfl
    (by norm_num)

/-- C1 counterexample: `VectorStore.search` with requested `k = 2` on a
one-chunk store returns TWO results, not `min 2 1 = 1`: FAISS pads with
label `-1`, and Python's negative indexing silently turns that sentinel
into a duplicate of the last stored chunk. -/
theorem vectorstore_search_pads_beyond_collection :
    VectorStore.search vsOne "q".data 2 = .ok ["a".data, "a".data] ∧
    ¬ ((["a".data, "a".data] : List Text).length = min 2 vsOne.texts.length) := by
  exact ⟨by decide, by decide⟩

/-! ## Claim C2 -/

/-- C2 (amended): for `chunk_size > 0` and `0 ≤ overlap < chunk_size`, the
word chunker emits exactly one chunk per visited window, consecutive
windows start exactly `chunk_size - overlap` apart, and the windows cover
the whole page `[0, n)` with no gap.  The character chunker satisfies the
same three properties PROVIDED no visited window strips to whitespace-only:
a whitespace-only window aborts the page early and loses the remainder
(see counterexample), and a negative overlap would also break coverage,
hence `0 ≤ overlap`. -/
theorem chunk_windows_step_and_cover (cs ov : Int) (hcs : 0 < cs) (hov : 0 ≤ ov)
    (hlt : ov < cs) :
    (∀ text : Text,
      RagEngine.simple_chunk text cs ov =
        some ((chunkWindows ((pySplit text).length) cs ov ((pySplit text).length + 1) 0).map
          (fun w => List.intercalate [' '] (pySlice (pySplit text) w.1 w.2))) ∧
      List.Chain' (fun a b : Int × Int => b.1 = a.1 + (cs - ov))
        (chunkWindows ((pySplit text).length) cs ov ((pySplit text).length + 1) 0) ∧
      (∀ p : Int, 0 ≤ p → p < ((pySplit text).length : Int) →
        ∃ w ∈ chunkWindows ((pySplit text).length) cs ov ((pySplit text).length + 1) 0,
          w.1 ≤ p ∧ p < w.2)) ∧
    (∀ page : PdfLoader.Page,
      (∀ s : Int, 0 ≤ s → s < (page.text.length : Int) →
        pyStrip (pySlice page.text s (min (s + cs) (page.text.length : Int))) ≠ []) →
      (PdfLoader.simple_chunk [page] cs ov).map (fun res => res.map PdfLoader.Chunk.text) =
        some ((chunkWindows (page.text.length) cs ov (page.text.length + 1) 0).map
          (fun w => pyStrip (pySlice page.text w.1 w.2))) ∧
      List.Chain' (fun a b : Int × Int => b.1 = a.1 + (cs - ov))
        (chunkWindows (page.text.length) cs ov (page.text.length + 1) 0) ∧
      (∀ p : Int, 0 ≤ p → p < (page.text.length : Int) →
        ∃ w ∈ chunkWindows (page.text.length) cs ov (page.text.length + 1) 0,
          w.1 ≤ p ∧ p < w.2)) := by
  constructor
  · intro text
    refine ⟨?_, chunkWindows_chain _ cs ov hov hlt _ 0 le_rfl,
      fun p hp0 hpn => chunkWindows_cover _ cs ov hcs hov hlt _ 0 le_rfl (by omega) p hp0 hpn⟩
    obtain ⟨res, hres⟩ := ragLoop_total (pySplit text) cs ov hov hlt
      ((pySplit text).length + 1) 0 [] le_rfl (by omega)
    have heq := ragLoop_eq_windows (pySplit text) cs ov hcs (pySplit_sound text)
      ((pySplit text).length + 1) 0 [] res le_rfl hres
    rw [List.nil_append] at heq
    simp only [RagEngine.simple_chunk]
    rw [hres, heq]
  · intro page hnb
    refine ⟨?_, chunkWindows_chain _ cs ov hov hlt _ 0 le_rfl,
      fun p hp0 hpn => chunkWindows_cover _ cs ov hcs hov hlt _ 0 le_rfl (by omega) p hp0 hpn⟩
    obtain ⟨out, hout⟩ := pageLoop_total page.id page.metadata page.text cs ov hov hlt
      (page.text.length + 1) 0 0 [] le_rfl (by omega)
    have htexts := pageLoop_texts page.id page.metadata page.text cs ov
      (page.text.length + 1) 0 0 [] out hout
    rw [List.map_nil, List.nil_append] at htexts
    have hw := charWindows_eq_chunkWindows page.text cs ov hnb (page.text.length + 1) 0 le_rfl
    simp only [PdfLoader.simple_chunk, List.foldl_cons, List.foldl_nil]
    rw [show PdfLoader.chunkStep cs ov (some (0, [])) page =
      PdfLoader.pageLoop page.id page.metadata page.text cs ov (page.text.length + 1) 0 0 []
      from rfl, hout]
    simp only [Option.map_some']
    rw [htexts, hw]

/-- Witness for the amended C2 at `chunk_size = 2`, `overlap = 1`, on a
three-word text and a four-character page with no blank window. -/
theorem chunk_windows_step_and_cover_witness :
    RagEngine.simple_chunk "a b c".data 2 1 =
      some ((chunkWindows ((pySplit "a b c".data).length) 2 1
          ((pySplit "a b c".data).length + 1) 0).map
        (fun w => List.intercalate [' '] (pySlice (pySplit "a b c".data) w.1 w.2))) ∧
    (PdfLoader.simple_chunk [pageAbcd] 2 1).map (fun res => res.map PdfLoader.Chunk.text) =
      some ((chunkWindows (pageAbcd.text.length) 2 1 (pageAbcd.text.length + 1) 0).map
        (fun w => pyStrip (pySlice pageAbcd.text w.1 w.2))) := by
  have h := chunk_windows_step_and_cover 2 1 (by norm_num) (by norm_num) (by norm_num)
  refine ⟨(h.1 "a b c".data).1, (h.2 pageAbcd ?_).1⟩
  intro s hs0 hsn
  have hsn4 : s < 4 := by simpa using hsn
  interval_cases s <;> decide

/-- C2 counterexample: on the page `"ab      cd"` (a six-space run) with
`chunk_size = 4`, `overlap = 0` (a configuration with
`overlap < chunk_size`), the character chunker emits only the window
`[0, 4)` and then hits a whitespace-only window and breaks: position `8`
(the letter `c`) lies on the page but in no emitted window, so the union of
the emitted chunk windows does not cover the page. -/
theorem char_chunker_window_gap :
    PdfLoader.simple_chunk [pageGap] 4 0 =
      some [⟨"doc.pdf_p1_c0", "ab".data, pageGap.metadata⟩] ∧
    PdfLoader.charWindows pageGap.text 4 0 (pageGap.text.length + 1) 0 = [(0, 4)] ∧
    ¬ ((0 : Int) ≤ 8 ∧ (8 : Int) < 4) ∧
    (8 : Int) < (pageGap.text.length : Int) := by
  refine ⟨by decide, by decide, by decide, by decide⟩
